import Mathlib

/-!
Verification of the Postgres logical-replication source
(src/storage/src/source/postgres.rs).

The development shallowly embeds the parts of the implementation that the
properties below are about: the u64 LSN arithmetic, the error
classification (`ErrorExt::is_definite`), tuple decoding
(`datums_from_tuple`, `cast_row`), the transactional decoder of
`produce_replication` (Begin/Insert/Update/Delete/Commit/... handling and
the fast-forward probe), the `RowSender` coalescer, the snapshot consume
loop and the rewind loop of `postgres_replication_loop_inner`, and
`PgOffsetCommitter::commit_offsets`.

Machine integers (`u64` LSNs) are modelled as `Nat` with explicit
arithmetic modulo `2 ^ 64` where the code performs u64 addition or
subtraction.  External collaborators (the expression engine `MirScalarExpr`,
the publication-info fetch performed on `Relation` messages, the network
client and clock) are modelled as parameters of the embedding: a cast is an
arbitrary function from datums to a datum or an error, and a `Relation`
message carries the outcome of the externally-performed compatibility
check.  Time-driven behaviour (feedback ticks, the 30s WAL-lag timer) is
represented by input data: a keepalive carries the decision of the
`WAL_LAG_GRACE_PERIOD` comparison.
-/

/-! ## u64 arithmetic -/

/-- The modulus of 64-bit unsigned arithmetic. -/
def U64MOD : Nat := 2 ^ 64

/-- u64 wrapping addition, as performed on `u64::from(lsn) + 1`. -/
def u64add (x y : Nat) : Nat := (x + y) % U64MOD

/-- u64 wrapping subtraction, as performed on `u64::from(lsn) - 1`
(release-profile semantics). -/
def u64sub (x y : Nat) : Nat := (x + (U64MOD - y % U64MOD)) % U64MOD

/-! ## Data model -/

/-- A datum of a row.  The snapshot and replication paths only ever push
`Datum::Null` and `Datum::String` before casting, so those are the two
constructors we need. -/
inductive Datum where
  | null : Datum
  | str (s : String) : Datum
deriving DecidableEq, Repr

/-- A row is an ordered sequence of datums (`mz_repr::Row`). -/
abbrev Row := List Datum

/-- `postgres_protocol::message::backend::TupleData`. -/
inductive TupleData where
  | null : TupleData
  | unchangedToast : TupleData
  | text (s : String) : TupleData
deriving DecidableEq, Repr

/-- A scalar cast expression.  `MirScalarExpr::eval` belongs to the external
expression engine; we model it as an arbitrary function from the input
datums to a datum or an evaluation error. -/
def MirScalarExpr := List Datum → Except String Datum

/-- The relational description of an upstream table
(`mz_postgres_util::desc::PostgresTableDesc`), restricted to the fields the
source reads: namespace, name, oid and the column list (only its length and
identity matter here). -/
structure PostgresTableDesc where
  namespc : String
  name : String
  oid : Nat
  columns : List String

/-- Information about an ingested upstream table (`SourceTable`). -/
structure SourceTable where
  output_index : Nat
  desc : PostgresTableDesc
  casts : List MirScalarExpr

/-- The map from table oid to its `SourceTable`, i.e. the
`BTreeMap<u32, SourceTable>` of the task, as an association list. -/
abbrev SourceTables := List (Nat × SourceTable)

/-! ## Error model -/

/-- The three-valued `ReplicationError`, carrying the error text. -/
inductive RepError where
  | definite (msg : String) : RepError
  | indefinite (msg : String) : RepError
  | irrecoverable (msg : String) : RepError
deriving DecidableEq, Repr

/-- A `tokio_postgres::error::DbError`, restricted to its SQLSTATE code,
modelled as the list of its (ASCII) characters. -/
structure DbError where
  code : List Char
deriving DecidableEq, Repr

/-- `self.code().code().get(0..2)`: the first two characters of the
SQLSTATE code, or `none` when the code is shorter than two characters. -/
def sqlstateClass : List Char → Option (List Char)
  | a :: b :: _ => some [a, b]
  | _ => none

/-- `impl ErrorExt for DbError`: definite exactly for SQLSTATE classes
3D, 3F and 42. -/
def DbError.is_definite (e : DbError) : Bool :=
  match sqlstateClass e.code with
  | none => false
  | some cls =>
      if cls = ['3', 'D'] then true
      else if cls = ['3', 'F'] then true
      else if cls = ['4', '2'] then true
      else false

/-- The dynamic cause of a `tokio_postgres::Error`: either a downcastable
`DbError` or some other (transport-level) error. -/
inductive PgCause where
  | db (e : DbError) : PgCause
  | other : PgCause

/-- A `tokio_postgres::Error` with its optional source. -/
structure PgError where
  cause : Option PgCause

/-- `impl ErrorExt for tokio_postgres::Error`: defer to a downcast
`DbError` cause, otherwise indefinite. -/
def PgError.is_definite (e : PgError) : Bool :=
  match e.cause with
  | some (PgCause.db dbErr) => dbErr.is_definite
  | some PgCause.other => false
  | none => false

/-- The dynamic cause of a `std::io::Error` as inspected by the code:
a `tokio_postgres::Error`, a bare `DbError`, or something else. -/
inductive IoCause where
  | pg (e : PgError) : IoCause
  | db (e : DbError) : IoCause
  | other : IoCause

/-- A `std::io::Error` with its optional source. -/
structure IoError where
  cause : Option IoCause

/-- `impl ErrorExt for std::io::Error`. -/
def IoError.is_definite (e : IoError) : Bool :=
  match e.cause with
  | some (IoCause.pg pgErr) => pgErr.is_definite
  | some (IoCause.db dbErr) => dbErr.is_definite
  | some IoCause.other => false
  | none => false

/-- `tokio::time::error::Elapsed`, the read-timeout error. -/
structure ElapsedError where
  unit : Unit

/-- `impl ErrorExt for tokio::time::error::Elapsed`: always indefinite. -/
def ElapsedError.is_definite (_ : ElapsedError) : Bool := false

/-- The `DbError` cause identified by `tokio_postgres::Error`'s
classification chain, if any. -/
def PgError.identifiableDb (e : PgError) : Option DbError :=
  match e.cause with
  | some (PgCause.db dbErr) => some dbErr
  | _ => none

/-- The `DbError` cause identified by `std::io::Error`'s classification
chain, if any. -/
def IoError.identifiableDb (e : IoError) : Option DbError :=
  match e.cause with
  | some (IoCause.pg pgErr) => pgErr.identifiableDb
  | some (IoCause.db dbErr) => some dbErr
  | _ => none

/-! ## Tuple decoding and casting -/

/-- The remediation hint shared by the TOAST and missing-old-row errors. -/
def replicaIdentityHint : String :=
  "Did you forget to set REPLICA IDENTITY to FULL for your table?"

/-- The error message of `datums_from_tuple` on an `UnchangedToast` field
(the backslash line continuation in the Rust literal joins the two lines
with the single space preceding it). -/
def toastErrMsg (relId : Nat) : String :=
  "Missing TOASTed value from table with OID = " ++ toString relId ++
  ". " ++ replicaIdentityHint

/-- The error message produced when an Update or Delete arrives without an
old tuple (the Rust literal embeds a newline and the 37 spaces of the
continuation line's indentation). -/
def oldRowMissingMsg (relId : Nat) : String :=
  "Old row missing from replication stream for table with OID = " ++
  toString relId ++ ".\n                                     " ++
  replicaIdentityHint

/-- The per-field loop body of `datums_from_tuple`: `Null` becomes
`Datum::Null`, `UnchangedToast` aborts with the TOAST error, `Text` becomes
a string datum. -/
def tupleDatumsAux (relId : Nat) : List TupleData → Except String (List Datum)
  | [] => Except.ok []
  | TupleData.null :: rest =>
      (tupleDatumsAux relId rest).map (fun ds => Datum.null :: ds)
  | TupleData.unchangedToast :: _ => Except.error (toastErrMsg relId)
  | TupleData.text s :: rest =>
      (tupleDatumsAux relId rest).map (fun ds => Datum.str s :: ds)

/-- `datums_from_tuple`: convert the first `len` fields of a tuple into
datums (`tuple_data.into_iter().take(len)`). -/
def datums_from_tuple (relId len : Nat) (tupleData : List TupleData) :
    Except String (List Datum) :=
  tupleDatumsAux relId (tupleData.take len)

/-- The fold of `cast_row` over the table's cast expressions. -/
def castRowAux (datums : List Datum) : List MirScalarExpr → Except String (List Datum)
  | [] => Except.ok []
  | c :: rest =>
      match c datums with
      | Except.error e => Except.error e
      | Except.ok d => (castRowAux datums rest).map (fun ds => d :: ds)

/-- `cast_row`: evaluate each cast over the text datums, packing the
results into a row. -/
def cast_row (tableCast : List MirScalarExpr) (datums : List Datum) :
    Except String Row :=
  castRowAux datums tableCast

/-- The TOAST back-fill of the Update arm: zip the new tuple with the old
one and replace every `UnchangedToast` field of the new tuple by the field
at the corresponding position of the old tuple. -/
def backfillToast (newTuple oldTuple : List TupleData) : List TupleData :=
  (newTuple.zip oldTuple).map fun p =>
    match p.1 with
    | TupleData.unchangedToast => p.2
    | _ => p.1

/-! ## The replication decoder (`produce_replication`) -/

/-- The mutable decoder state of `produce_replication`'s stream body. -/
structure DecState where
  inserts : List (Nat × Row)
  deletes : List (Nat × Row)
  lastCommitLsn : Nat
  observedWalEnd : Nat
deriving DecidableEq, Repr

/-- An element of `produce_replication`'s output stream:
`Event<[PgLsn; 1], (usize, Row, Diff)>`. -/
inductive RepEvent where
  | message (lsn : Nat) (out : Nat) (row : Row) (diff : Int) : RepEvent
  | progress (lsn : Nat) : RepEvent
deriving DecidableEq, Repr

/-- A decoded `LogicalReplicationMessage`.  A `relation` message carries
the outcome of the externally-performed publication-info fetch and
compatibility check (`mz_postgres_util::publication_info` followed by
`determine_compatibility`), which the decoder merely propagates. -/
inductive LogicalMsg where
  | begin : LogicalMsg
  | insert (relId : Nat) (newTuple : List TupleData) : LogicalMsg
  | update (relId : Nat) (oldTuple : Option (List TupleData))
      (newTuple : List TupleData) : LogicalMsg
  | delete (relId : Nat) (oldTuple : Option (List TupleData)) : LogicalMsg
  | commit (endLsn : Nat) : LogicalMsg
  | relation (relId : Nat) (checkResult : Except RepError Unit) : LogicalMsg
  | origin : LogicalMsg
  | type : LogicalMsg
  | truncate (relIds : List Nat) : LogicalMsg
  | unknown : LogicalMsg

/-- The `Insert` arm: decode the new tuple, cast it, and push the result
onto the `inserts` buffer. -/
def handleInsert (st : DecState) (info : SourceTable) (relId : Nat)
    (newTuple : List TupleData) : Except RepError DecState :=
  match datums_from_tuple relId info.desc.columns.length newTuple with
  | Except.error e => Except.error (RepError.definite e)
  | Except.ok datums =>
      match cast_row info.casts datums with
      | Except.error e => Except.error (RepError.definite e)
      | Except.ok row =>
          Except.ok { st with inserts := st.inserts ++ [(info.output_index, row)] }

/-- The `Update` arm: require the old tuple, push the decoded old row onto
`deletes`, back-fill `UnchangedToast` fields of the new tuple from the old
one, and push the decoded new row onto `inserts`. -/
def handleUpdate (st : DecState) (info : SourceTable) (relId : Nat)
    (oldTuple : Option (List TupleData)) (newTuple : List TupleData) :
    Except RepError DecState :=
  match oldTuple with
  | none => Except.error (RepError.definite (oldRowMissingMsg relId))
  | some old =>
      match datums_from_tuple relId info.desc.columns.length old with
      | Except.error e => Except.error (RepError.definite e)
      | Except.ok oldDatums =>
          match cast_row info.casts oldDatums with
          | Except.error e => Except.error (RepError.definite e)
          | Except.ok oldRow =>
              let st := { st with deletes := st.deletes ++ [(info.output_index, oldRow)] }
              match datums_from_tuple relId info.desc.columns.length
                  (backfillToast newTuple old) with
              | Except.error e => Except.error (RepError.definite e)
              | Except.ok newDatums =>
                  match cast_row info.casts newDatums with
                  | Except.error e => Except.error (RepError.definite e)
                  | Except.ok newRow =>
                      Except.ok
                        { st with inserts := st.inserts ++ [(info.output_index, newRow)] }

/-- The `Delete` arm: require the old tuple, decode and cast it, and push
the result onto the `deletes` buffer. -/
def handleDelete (st : DecState) (info : SourceTable) (relId : Nat)
    (oldTuple : Option (List TupleData)) : Except RepError DecState :=
  match oldTuple with
  | none => Except.error (RepError.definite (oldRowMissingMsg relId))
  | some old =>
      match datums_from_tuple relId info.desc.columns.length old with
      | Except.error e => Except.error (RepError.definite e)
      | Except.ok datums =>
          match cast_row info.casts datums with
          | Except.error e => Except.error (RepError.definite e)
          | Except.ok row =>
              Except.ok { st with deletes := st.deletes ++ [(info.output_index, row)] }

/-- The error message of the `Truncate` arm. -/
def truncateMsg (tables : SourceTables) (relIds : List Nat) : String :=
  "source table(s) " ++
  String.intercalate ", "
    ((relIds.filterMap (fun id => tables.lookup id)).map
      (fun info => "name: " ++ info.desc.name ++ " id: " ++ toString info.desc.oid)) ++
  " got truncated"

/-- One step of the `XLogData` match of `produce_replication`: process a
logical replication message, returning the updated buffers and the events
yielded. -/
def processLogicalMsg (tables : SourceTables) (st : DecState) :
    LogicalMsg → Except RepError (DecState × List RepEvent)
  | LogicalMsg.begin =>
      if st.inserts ≠ [] ∨ st.deletes ≠ [] then
        Except.error (RepError.definite "got BEGIN statement after uncommitted data")
      else Except.ok (st, [])
  | LogicalMsg.insert relId newTuple =>
      match tables.lookup relId with
      | some info => (handleInsert st info relId newTuple).map (fun st' => (st', []))
      | none => Except.ok (st, [])
  | LogicalMsg.update relId oldTuple newTuple =>
      match tables.lookup relId with
      | some info =>
          (handleUpdate st info relId oldTuple newTuple).map (fun st' => (st', []))
      | none => Except.ok (st, [])
  | LogicalMsg.delete relId oldTuple =>
      match tables.lookup relId with
      | some info => (handleDelete st info relId oldTuple).map (fun st' => (st', []))
      | none => Except.ok (st, [])
  | LogicalMsg.commit endLsn =>
      Except.ok
        ({ st with inserts := [], deletes := [], lastCommitLsn := endLsn },
          st.deletes.map (fun d => RepEvent.message endLsn d.1 d.2 (-1)) ++
          st.inserts.map (fun i => RepEvent.message endLsn i.1 i.2 1) ++
          [RepEvent.progress (u64add endLsn 1)])
  | LogicalMsg.relation relId checkResult =>
      match tables.lookup relId with
      | some _ => checkResult.map (fun _ => (st, []))
      | none => Except.ok (st, [])
  | LogicalMsg.origin => Except.ok (st, [])
  | LogicalMsg.type => Except.ok (st, [])
  | LogicalMsg.truncate relIds =>
      Except.error (RepError.definite (truncateMsg tables relIds))
  | LogicalMsg.unknown =>
      Except.error (RepError.definite "unexpected logical replication message")

/-- A message of the replication stream as consumed by the inner loop of
`produce_replication`.  A keepalive carries the decision of the
time-dependent `last_data_message.elapsed() > WAL_LAG_GRACE_PERIOD`
comparison as the `lagged` flag; a stream error carries the
`tokio_postgres::Error` that classification inspects together with its
display text. -/
inductive RepMsg where
  | xlog (m : LogicalMsg) : RepMsg
  | keepalive (walEnd : Nat) (reply : Nat) (lagged : Bool) : RepMsg
  | streamErr (e : PgError) (msg : String) : RepMsg
  | unknownVariant : RepMsg

/-- One round of `produce_replication`'s outer loop: the replication
messages read until the inner loop breaks, followed by the LSNs returned
by the `pg_logical_slot_peek_binary_changes` probe. -/
structure Round where
  msgs : List RepMsg
  peeked : List Nat

/-- `impl From<E> for ReplicationError`: classify a stream error through
`ErrorExt::is_definite`. -/
def classifyStreamErr (e : PgError) (msg : String) : RepError :=
  if e.is_definite then RepError.definite msg else RepError.indefinite msg

/-- The inner loop of `produce_replication`: consume messages until the
stream ends, a keepalive detects WAL lag (breaking to the probe), or an
error terminates the generator.  Returns the final state, the events
yielded, and the terminating error if any. -/
def runInner (tables : SourceTables) (st : DecState) :
    List RepMsg → DecState × List RepEvent × Option RepError
  | [] => (st, [], none)
  | RepMsg.xlog m :: rest =>
      match processLogicalMsg tables st m with
      | Except.error e => (st, [], some e)
      | Except.ok (st', evs) =>
          let r := runInner tables st' rest
          (r.1, evs ++ r.2.1, r.2.2)
  | RepMsg.keepalive walEnd _ lagged :: rest =>
      let st' := { st with observedWalEnd := walEnd }
      if lagged then (st', [], none) else runInner tables st' rest
  | RepMsg.streamErr e msg :: _ => (st, [], some (classifyStreamErr e msg))
  | RepMsg.unknownVariant :: _ =>
      (st, [], some (RepError.definite "Unexpected replication message"))

/-- The fast-forward probe of `produce_replication`: count the peeked
changes with `lsn > last_commit_lsn`; when there are none, fast-forward
`last_commit_lsn` to the observed WAL end and yield a `Progress` frontier
one past it. -/
def runProbe (peeked : List Nat) (st : DecState) : DecState × List RepEvent :=
  let changes := (peeked.filter (fun lsn => st.lastCommitLsn < lsn)).length
  if changes = 0 then
    ({ st with lastCommitLsn := st.observedWalEnd },
      [RepEvent.progress (u64add st.observedWalEnd 1)])
  else (st, [])

/-- The outer loop of `produce_replication`: alternate the inner streaming
loop with the fast-forward probe; the next round's `START_REPLICATION`
reopens the stream at the `lastCommitLsn` left by the probe. -/
def runRounds (tables : SourceTables) (st : DecState) :
    List Round → List RepEvent × Option RepError
  | [] => ([], none)
  | round :: rest =>
      let r := runInner tables st round.msgs
      match r.2.2 with
      | some e => (r.2.1, some e)
      | none =>
          let p := runProbe round.peeked r.1
          let tail := runRounds tables p.1 rest
          (r.2.1 ++ p.2 ++ tail.1, tail.2)

/-- `produce_replication` as a function of its input trace: the decoder
starts with empty buffers and with both `last_commit_lsn` and
`observed_wal_end` at the `as_of` LSN. -/
def produce_replication (tables : SourceTables) (asOf : Nat)
    (rounds : List Round) : List RepEvent × Option RepError :=
  runRounds tables
    { inserts := [], deletes := [], lastCommitLsn := asOf, observedWalEnd := asOf }
    rounds

/-- The handler of `Event::Progress([lsn])` in
`postgres_replication_loop_inner` computes the new replication cursor as
`PgLsn::from(u64::from(lsn) - 1)`. -/
def handlerReplicationLsn (lsn : Nat) : Nat := u64sub lsn 1

/-! ## The `RowSender` coalescer -/

/-- The buffered message of the coalescer (`RowMessage`). -/
structure RowMessage where
  output_index : Nat
  row : Row
  lsn : Nat
  diff : Int
deriving DecidableEq, Repr

/-- A record sent to the dataflow channel (`InternalMessage::Value`). -/
structure OutRecord where
  out : Nat
  value : Row
  lsn : Nat
  diff : Int
  endFlag : Bool
deriving DecidableEq, Repr

/-- The state of a `RowSender`: at most one buffered message. -/
structure RowSenderState where
  buffered_message : Option RowMessage
deriving DecidableEq, Repr

/-- `RowSender::send_row`: when a message is buffered, assert that its LSN
equals the new one (`none` models the assertion failure), flush it with
`end = false`, and buffer the new message. -/
def send_row (st : RowSenderState) (outputIndex : Nat) (row : Row) (lsn : Nat)
    (diff : Int) : Option (RowSenderState × List OutRecord) :=
  match st.buffered_message with
  | some buffered =>
      if buffered.lsn = lsn then
        some
          ({ buffered_message := some ⟨outputIndex, row, lsn, diff⟩ },
            [⟨buffered.output_index, buffered.row, buffered.lsn, buffered.diff, false⟩])
      else none
  | none => some ({ buffered_message := some ⟨outputIndex, row, lsn, diff⟩ }, [])

/-- `RowSender::close_lsn`: when a message is buffered, assert that its LSN
is at most the closed one, and flush it with `end = true`. -/
def close_lsn (st : RowSenderState) (lsn : Nat) :
    Option (RowSenderState × List OutRecord) :=
  match st.buffered_message with
  | some buffered =>
      if buffered.lsn ≤ lsn then
        some
          ({ buffered_message := none },
            [⟨buffered.output_index, buffered.row, buffered.lsn, buffered.diff, true⟩])
      else none
  | none => some (st, [])

/-- Fold `send_row` over a list of `(output, row, diff)` triples at a
single LSN, accumulating the emitted records. -/
def runSends (st : RowSenderState) (lsn : Nat) :
    List (Nat × Row × Int) → Option (RowSenderState × List OutRecord)
  | [] => some (st, [])
  | (o, r, d) :: rest =>
      match send_row st o r lsn d with
      | none => none
      | some (st', recs) =>
          (runSends st' lsn rest).map (fun p => (p.1, recs ++ p.2))

/-- A full per-LSN scenario: a sequence of `send_row` calls at `lsn`
followed by `close_lsn closeAt`. -/
def runScenario (lsn closeAt : Nat) (xs : List (Nat × Row × Int)) :
    Option (RowSenderState × List OutRecord) :=
  match runSends { buffered_message := none } lsn xs with
  | none => none
  | some (st, recs) =>
      (close_lsn st closeAt).map (fun p => (p.1, recs ++ p.2))

/-! ## The rewind phase of `postgres_replication_loop_inner` -/

/-- A call made on the task's `RowSender`. -/
inductive SenderAction where
  | sendRowCall (out : Nat) (row : Row) (lsn : Nat) (diff : Int) : SenderAction
  | closeLsnCall (lsn : Nat) : SenderAction
deriving DecidableEq, Repr

/-- The body of the rewind `while` loop: re-emit every message with
`lsn ≤ snapshot_lsn` at the slot LSN with a negated diff, stop at the
first progress marker past the snapshot LSN (closing the slot LSN), and
escalate non-definite stream errors to irrecoverable. -/
def rewindLoop (slotLsn snapshotLsn : Nat) :
    List (Except RepError RepEvent) → List SenderAction × Option RepError
  | [] => ([], none)
  | Except.ok (RepEvent.message lsn out row diff) :: rest =>
      if lsn ≤ snapshotLsn then
        let r := rewindLoop slotLsn snapshotLsn rest
        (SenderAction.sendRowCall out row slotLsn (-diff) :: r.1, r.2)
      else rewindLoop slotLsn snapshotLsn rest
  | Except.ok (RepEvent.progress lsn) :: rest =>
      if snapshotLsn < lsn then ([SenderAction.closeLsnCall slotLsn], none)
      else rewindLoop slotLsn snapshotLsn rest
  | Except.error (RepError.definite msg) :: _ =>
      ([], some (RepError.definite msg))
  | Except.error (RepError.indefinite msg) :: _ =>
      ([], some (RepError.irrecoverable msg))
  | Except.error (RepError.irrecoverable msg) :: _ =>
      ([], some (RepError.irrecoverable msg))

/-- The guarded rewind section: `assert!(slot_lsn <= snapshot_lsn)` (the
`none` result models the assertion failure) followed by the conditional
rewind loop. -/
def rewindSection (slotLsn snapshotLsn : Nat)
    (events : List (Except RepError RepEvent)) :
    Option (List SenderAction × Option RepError) :=
  if slotLsn ≤ snapshotLsn then
    if slotLsn < snapshotLsn then some (rewindLoop slotLsn snapshotLsn events)
    else some ([], none)
  else none

/-- An input on which the rewind loop stops: a progress marker past the
snapshot LSN, or any stream error. -/
def rewindStopper (snapshotLsn : Nat) : Except RepError RepEvent → Bool
  | Except.ok (RepEvent.progress lsn) => snapshotLsn < lsn
  | Except.ok (RepEvent.message _ _ _ _) => false
  | Except.error _ => true

/-- The claim's description of what a single non-stopping input
contributes: a message at or below the snapshot LSN is re-emitted at the
slot LSN with a negated diff, everything else contributes nothing. -/
def rewindEmit (slotLsn snapshotLsn : Nat) :
    Except RepError RepEvent → List SenderAction
  | Except.ok (RepEvent.message lsn out row diff) =>
      if lsn ≤ snapshotLsn then [SenderAction.sendRowCall out row slotLsn (-diff)]
      else []
  | _ => []

/-- The claim's description of the whole rewind phase, phrased with list
combinators: process inputs up to the first stopper; when that stopper is
a progress marker past the snapshot LSN, finish with `close_lsn(slot_lsn)`. -/
def rewindClaimActions (slotLsn snapshotLsn : Nat)
    (events : List (Except RepError RepEvent)) : List SenderAction :=
  ((events.takeWhile (fun e => !rewindStopper snapshotLsn e)).map
      (rewindEmit slotLsn snapshotLsn)).flatten ++
  (match (events.dropWhile (fun e => !rewindStopper snapshotLsn e)).head? with
    | some (Except.ok (RepEvent.progress _)) => [SenderAction.closeLsnCall slotLsn]
    | _ => [])

/-! ## The snapshot consume loop -/

/-- An item of the enumerated snapshot stream. -/
inductive SnapItem where
  | row (out : Nat) (r : Row) : SnapItem
  | fail (e : RepError) : SnapItem
deriving DecidableEq, Repr

/-- The error-class dispatch of the snapshot consume loop: definite errors
are returned as themselves, indefinite and irrecoverable errors are
escalated to irrecoverable. -/
def snapshotEscalate : RepError → RepError
  | RepError.definite msg => RepError.definite msg
  | RepError.indefinite msg => RepError.irrecoverable msg
  | RepError.irrecoverable msg => RepError.irrecoverable msg

/-- The message of the `pg_snapshot_failure` fail point. -/
def failpointMsg : String := "recoverable errors should crash the process"

/-- The snapshot consume loop with the enumeration index threaded through:
when the `pg_snapshot_failure` fail point is configured and `i > 0`, the
iteration returns an indefinite error; otherwise rows are sent at the slot
LSN with diff `+1` and stream errors are dispatched through
`snapshotEscalate`. -/
def snapshotLoopAux (failpoint : Bool) (slotLsn i : Nat) :
    List SnapItem → Except RepError (List SenderAction)
  | [] => Except.ok []
  | item :: rest =>
      if failpoint ∧ 0 < i then Except.error (RepError.indefinite failpointMsg)
      else
        match item with
        | SnapItem.row out r =>
            (snapshotLoopAux failpoint slotLsn (i + 1) rest).map
              (fun acts => SenderAction.sendRowCall out r slotLsn 1 :: acts)
        | SnapItem.fail e => Except.error (snapshotEscalate e)

/-- The snapshot consume loop of `postgres_replication_loop_inner`,
starting at enumeration index 0. -/
def snapshotLoop (failpoint : Bool) (slotLsn : Nat) (items : List SnapItem) :
    Except RepError (List SenderAction) :=
  snapshotLoopAux failpoint slotLsn 0 items

/-! ## The offset committer -/

/-- `PgOffsetCommitter::commit_offsets`: store
`offset.saturating_sub(1)` into the shared resume LSN when the frontier is
non-empty (for `Nat`, subtraction is saturating), and return `Ok`.  The
first component is the value held by `ResumeLsn` afterwards. -/
def commit_offsets (resumeLsn : Nat) (frontier : Option Nat) :
    Nat × Except String Unit :=
  match frontier with
  | some offset => (offset - 1, Except.ok ())
  | none => (resumeLsn, Except.ok ())

/-! ## Helper lemmas -/

/-- `u64sub l 1` agrees with mathematical subtraction on positive valid
u64 values. -/
theorem u64sub_one_eq {l : Nat} (h1 : 1 ≤ l) (h2 : l < U64MOD) :
    u64sub l 1 = l - 1 := by
  have hm : (1 : Nat) % U64MOD = 1 := by decide
  have hrw : l + (U64MOD - 1) = (l - 1) + U64MOD := by omega
  have hlt : l - 1 < U64MOD := by omega
  simp [u64sub, hm, hrw, Nat.add_mod_right, Nat.mod_eq_of_lt hlt]

/-- A tuple containing an `UnchangedToast` field fails to decode with the
TOAST error. -/
theorem tupleDatumsAux_toast (relId : Nat) (l : List TupleData)
    (h : TupleData.unchangedToast ∈ l) :
    tupleDatumsAux relId l = Except.error (toastErrMsg relId) := by
  induction l with
  | nil => cases h
  | cons x rest ih =>
      cases x with
      | null =>
          have hr : TupleData.unchangedToast ∈ rest := by
            rcases List.mem_cons.mp h with h' | h'
            · exact absurd h' (by simp)
            · exact h'
          simp [tupleDatumsAux, ih hr, Except.map]
      | unchangedToast => simp [tupleDatumsAux]
      | text s =>
          have hr : TupleData.unchangedToast ∈ rest := by
            rcases List.mem_cons.mp h with h' | h'
            · exact absurd h' (by simp)
            · exact h'
          simp [tupleDatumsAux, ih hr, Except.map]

/-! ## Claim theorems -/

/-- C6: an upstream `DbError` is classified as definite if and only if the
first two characters of its SQLSTATE code are 3D, 3F or 42; every other
`DbError`, and every error without an identifiable `DbError` cause
(transport errors and read timeouts included), is classified as
indefinite. -/
theorem sqlstate_classification :
    (∀ e : DbError, e.is_definite = true ↔
      (e.code.take 2 = ['3', 'D'] ∨ e.code.take 2 = ['3', 'F'] ∨
        e.code.take 2 = ['4', '2'])) ∧
    (∀ e : ElapsedError, e.is_definite = false) ∧
    (∀ e : PgError, e.identifiableDb = none → e.is_definite = false) ∧
    (∀ e : PgError, ∀ d : DbError,
      e.identifiableDb = some d → e.is_definite = d.is_definite) ∧
    (∀ e : IoError, e.identifiableDb = none → e.is_definite = false) ∧
    (∀ e : IoError, ∀ d : DbError,
      e.identifiableDb = some d → e.is_definite = d.is_definite) := by
  refine ⟨?_, ?_, ?_, ?_, ?_, ?_⟩
  · intro e
    match e with
    | ⟨[]⟩ => simp [DbError.is_definite, sqlstateClass]
    | ⟨[a]⟩ =>
        simp only [DbError.is_definite, sqlstateClass, List.take]
        constructor
        · intro h; cases h
        · intro h
          rcases h with h | h | h <;> cases h
    | ⟨a :: b :: rest⟩ =>
        simp only [DbError.is_definite, sqlstateClass, List.take]
        by_cases h1 : ([a, b] : List Char) = ['3', 'D'] <;>
          by_cases h2 : ([a, b] : List Char) = ['3', 'F'] <;>
            by_cases h3 : ([a, b] : List Char) = ['4', '2'] <;>
              simp [h1, h2, h3]
  · intro e; rfl
  · intro e h
    cases e with
    | mk cause =>
        cases cause with
        | none => rfl
        | some c =>
            cases c with
            | db d => simp [PgError.identifiableDb] at h
            | other => rfl
  · intro e d h
    cases e with
    | mk cause =>
        cases cause with
        | none => simp [PgError.identifiableDb] at h
        | some c =>
            cases c with
            | db d' =>
                simp [PgError.identifiableDb] at h
                subst h; rfl
            | other => simp [PgError.identifiableDb] at h
  · intro e h
    cases e with
    | mk cause =>
        cases cause with
        | none => rfl
        | some c =>
            cases c with
            | pg p =>
                simp [IoError.identifiableDb] at h
                cases p with
                | mk pcause =>
                    cases pcause with
                    | none => rfl
                    | some pc =>
                        cases pc with
                        | db d => simp [PgError.identifiableDb] at h
                        | other => rfl
            | db d => simp [IoError.identifiableDb] at h
            | other => rfl
  · intro e d h
    cases e with
    | mk cause =>
        cases cause with
        | none => simp [IoError.identifiableDb] at h
        | some c =>
            cases c with
            | pg p =>
                simp [IoError.identifiableDb] at h
                cases p with
                | mk pcause =>
                    cases pcause with
                    | none => simp [PgError.identifiableDb] at h
                    | some pc =>
                        cases pc with
                        | db d' =>
                            simp [PgError.identifiableDb] at h
                            subst h
                            simp [IoError.is_definite, PgError.is_definite]
                        | other => simp [PgError.identifiableDb] at h
            | db d' =>
                simp [IoError.identifiableDb] at h
                subst h; rfl
            | other => simp [IoError.identifiableDb] at h

/-- C6 witness: the classification evaluated on concrete errors: SQLSTATE
3D000 is definite, 08006 (connection failure) is not, a transport error
without a `DbError` cause is indefinite, and a wrapped 42601 io error is
definite. -/
theorem sqlstate_classification_witness :
    (DbError.mk ['3', 'D', '0', '0', '0']).is_definite = true ∧
    (PgError.mk (some PgCause.other)).is_definite = false ∧
    (IoError.mk (some (IoCause.pg (PgError.mk
      (some (PgCause.db (DbError.mk ['4', '2', '6', '0', '1']))))))).is_definite =
      (DbError.mk ['4', '2', '6', '0', '1']).is_definite := by
  refine ⟨?_, ?_, ?_⟩
  · exact (sqlstate_classification.1 (DbError.mk ['3', 'D', '0', '0', '0'])).mpr
      (Or.inl (by decide))
  · exact sqlstate_classification.2.2.1 (PgError.mk (some PgCause.other)) rfl
  · exact sqlstate_classification.2.2.2.2.2
      (IoError.mk (some (IoCause.pg (PgError.mk
        (some (PgCause.db (DbError.mk ['4', '2', '6', '0', '1'])))))))
      (DbError.mk ['4', '2', '6', '0', '1']) rfl

/-- C8: `commit_offsets` with a non-empty frontier stores
`offset.saturating_sub(1)` into `ResumeLsn` (i.e. `offset - 1` for
`offset ≥ 1` and `0` for `offset = 0`) and returns `Ok`. -/
theorem commit_offsets_stores_pred (resumeLsn offset : Nat) :
    (commit_offsets resumeLsn (some offset)).1 = offset - 1 ∧
    (1 ≤ offset → (commit_offsets resumeLsn (some offset)).1 + 1 = offset) ∧
    (commit_offsets resumeLsn (some 0)).1 = 0 ∧
    (commit_offsets resumeLsn (some offset)).2 = Except.ok () := by
  refine ⟨rfl, ?_, rfl, rfl⟩
  intro h
  simp [commit_offsets]
  omega

/-- C8 witness: committing the frontier 5 stores 4 and returns `Ok`. -/
theorem commit_offsets_stores_pred_witness :
    (commit_offsets 7 (some 5)).1 = 5 - 1 ∧
    (commit_offsets 7 (some 5)).1 + 1 = 5 ∧
    (commit_offsets 7 (some 0)).1 = 0 ∧
    (commit_offsets 7 (some 5)).2 = Except.ok () := by
  have h := commit_offsets_stores_pred 7 5
  exact ⟨h.1, h.2.1 (by decide), h.2.2.1, h.2.2.2⟩

/-- C1: on `Commit(end_lsn)` the decoder sets `last_commit_lsn` to
`end_lsn`, empties both buffers, emits the buffered deletes as
`(output, row, -1)` messages at `end_lsn`, then the buffered inserts as
`(output, row, +1)` messages at `end_lsn`, then a single `Progress` event
at `end_lsn + 1`; a commit with empty buffers emits no row messages but
still emits the `Progress` event. -/
theorem commit_drains_buffers (tables : SourceTables) (st : DecState)
    (endLsn : Nat) (h : endLsn + 1 < U64MOD) :
    processLogicalMsg tables st (LogicalMsg.commit endLsn) =
      Except.ok
        ({ st with inserts := [], deletes := [], lastCommitLsn := endLsn },
          st.deletes.map (fun d => RepEvent.message endLsn d.1 d.2 (-1)) ++
          st.inserts.map (fun i => RepEvent.message endLsn i.1 i.2 1) ++
          [RepEvent.progress (endLsn + 1)]) ∧
    (st.deletes = [] → st.inserts = [] →
      processLogicalMsg tables st (LogicalMsg.commit endLsn) =
        Except.ok
          ({ st with inserts := [], deletes := [], lastCommitLsn := endLsn },
            [RepEvent.progress (endLsn + 1)])) := by
  have hmod : u64add endLsn 1 = endLsn + 1 := by
    simp [u64add, Nat.mod_eq_of_lt h]
  constructor
  · simp [processLogicalMsg, hmod]
  · intro hd hi
    simp [processLogicalMsg, hmod, hd, hi]

/-- C1 witness: a commit at LSN 10 with one buffered delete and one
buffered insert, and a commit at LSN 3 with empty buffers. -/
theorem commit_drains_buffers_witness :
    processLogicalMsg []
        { inserts := [(1, [Datum.str "a"])], deletes := [(2, [Datum.null])],
          lastCommitLsn := 0, observedWalEnd := 0 }
        (LogicalMsg.commit 10) =
      Except.ok
        ({ inserts := [], deletes := [], lastCommitLsn := 10, observedWalEnd := 0 },
          [RepEvent.message 10 2 [Datum.null] (-1),
           RepEvent.message 10 1 [Datum.str "a"] 1,
           RepEvent.progress 11]) ∧
    processLogicalMsg []
        { inserts := [], deletes := [], lastCommitLsn := 0, observedWalEnd := 7 }
        (LogicalMsg.commit 3) =
      Except.ok
        ({ inserts := [], deletes := [], lastCommitLsn := 3, observedWalEnd := 7 },
          [RepEvent.progress 4]) := by
  constructor
  · exact (commit_drains_buffers []
      { inserts := [(1, [Datum.str "a"])], deletes := [(2, [Datum.null])],
        lastCommitLsn := 0, observedWalEnd := 0 } 10 (by decide)).1
  · exact (commit_drains_buffers []
      { inserts := [], deletes := [], lastCommitLsn := 0, observedWalEnd := 7 }
      3 (by decide)).2 rfl rfl

/-- C7: the fast-forward probe counts the peeked changes with
`lsn > last_commit_lsn`; when the count is zero it sets `last_commit_lsn`
to `observed_wal_end` and emits a `Progress` event at
`observed_wal_end + 1` before the stream is reopened at `last_commit_lsn`;
when the count is at least one it leaves the state unchanged and emits
nothing. -/
theorem fast_forward_probe (st : DecState) (peeked : List Nat)
    (h : st.observedWalEnd + 1 < U64MOD) :
    ((peeked.filter (fun lsn => st.lastCommitLsn < lsn)).length = 0 →
      runProbe peeked st =
        ({ st with lastCommitLsn := st.observedWalEnd },
          [RepEvent.progress (st.observedWalEnd + 1)])) ∧
    (1 ≤ (peeked.filter (fun lsn => st.lastCommitLsn < lsn)).length →
      runProbe peeked st = (st, [])) := by
  have hmod : u64add st.observedWalEnd 1 = st.observedWalEnd + 1 := by
    simp [u64add, Nat.mod_eq_of_lt h]
  constructor
  · intro hz
    simp [runProbe, hz, hmod]
  · intro hge
    have hne : (peeked.filter (fun lsn => st.lastCommitLsn < lsn)).length ≠ 0 := by
      omega
    simp [runProbe, hne]

/-- C7 witness: with `last_commit_lsn = 10` and `observed_wal_end = 90`,
peeked rows all at or before 10 fast-forward to 90 and emit a progress at
91, while a peeked row at 11 suppresses the fast-forward. -/
theorem fast_forward_probe_witness :
    runProbe [5, 10]
        { inserts := [], deletes := [], lastCommitLsn := 10, observedWalEnd := 90 } =
      ({ inserts := [], deletes := [], lastCommitLsn := 90, observedWalEnd := 90 },
        [RepEvent.progress 91]) ∧
    runProbe [5, 11]
        { inserts := [], deletes := [], lastCommitLsn := 10, observedWalEnd := 90 } =
      ({ inserts := [], deletes := [], lastCommitLsn := 10, observedWalEnd := 90 },
        []) := by
  constructor
  · exact (fast_forward_probe
      { inserts := [], deletes := [], lastCommitLsn := 10, observedWalEnd := 90 }
      [5, 10] (by decide)).1 (by decide)
  · exact (fast_forward_probe
      { inserts := [], deletes := [], lastCommitLsn := 10, observedWalEnd := 90 }
      [5, 11] (by decide)).2 (by decide)

/-- The record emitted when flushing a buffered message with the given end
flag (the body of `send_row_inner`). -/
def flushRecord (endFlag : Bool) (m : RowMessage) : OutRecord :=
  ⟨m.output_index, m.row, m.lsn, m.diff, endFlag⟩

/-- The buffered message built from a `send_row` argument triple at the
given LSN. -/
def msgOf (lsn : Nat) (x : Nat × Row × Int) : RowMessage :=
  ⟨x.1, x.2.1, lsn, x.2.2⟩

/-- Folding `send_row` at a fixed LSN over a buffer holding a message at
that LSN flushes all but the last message with `end = false` and leaves
the last one buffered. -/
theorem runSends_buffered (lsn : Nat) (xs : List (Nat × Row × Int)) :
    ∀ b : RowMessage, b.lsn = lsn →
    runSends { buffered_message := some b } lsn xs =
      some ({ buffered_message := some ((xs.map (msgOf lsn)).getLastD b) },
        ((b :: xs.map (msgOf lsn)).dropLast).map (flushRecord false)) := by
  induction xs with
  | nil => intro b hb; simp [runSends]
  | cons x rest ih =>
      intro b hb
      have hsend : send_row { buffered_message := some b } x.1 x.2.1 lsn x.2.2 =
          some ({ buffered_message := some (msgOf lsn x) }, [flushRecord false b]) := by
        simp [send_row, hb, msgOf, flushRecord]
      have hx : (msgOf lsn x).lsn = lsn := rfl
      calc runSends { buffered_message := some b } lsn (x :: rest)
          = match send_row { buffered_message := some b } x.1 x.2.1 lsn x.2.2 with
            | none => none
            | some (st', recs) =>
                (runSends st' lsn rest).map (fun p => (p.1, recs ++ p.2)) := rfl
        _ = (runSends { buffered_message := some (msgOf lsn x) } lsn rest).map
              (fun p => (p.1, [flushRecord false b] ++ p.2)) := by rw [hsend]
        _ = some ({ buffered_message := some (((x :: rest).map (msgOf lsn)).getLastD b) },
              ((b :: (x :: rest).map (msgOf lsn)).dropLast).map (flushRecord false)) := by
            rw [ih (msgOf lsn x) hx, List.map_cons, List.getLastD_cons,
              List.dropLast_cons₂]
            simp

/-- The default-carrying last element of a list of buffered messages built
at a single LSN is itself built at that LSN. -/
theorem getLastD_map_msgOf (lsn : Nat) (l : List (Nat × Row × Int))
    (x : Nat × Row × Int) :
    (l.map (msgOf lsn)).getLastD (msgOf lsn x) = msgOf lsn (l.getLastD x) := by
  induction l generalizing x with
  | nil => rfl
  | cons y t ih => rw [List.map_cons, List.getLastD_cons, List.getLastD_cons, ih]

/-- C2: the coalescer buffers at most one pending row; `send_row` asserts
the buffered LSN equals the new one, flushes the buffered row with
`end = false` and replaces the buffer; `close_lsn` asserts the buffered
LSN is at most the closed one and flushes with `end = true`.  For every
non-empty sequence of `send_row` calls at a single LSN followed by a
`close_lsn` covering that LSN, the assertions succeed, exactly one emitted
record carries `end = true`, and it is the last record; all records carry
the common LSN. -/
theorem coalescer_exactly_one_end (lsn closeAt : Nat)
    (xs : List (Nat × Row × Int)) (hne : xs ≠ []) (hle : lsn ≤ closeAt) :
    ∃ recs : List OutRecord,
      runScenario lsn closeAt xs = some ({ buffered_message := none }, recs) ∧
      recs.length = xs.length ∧
      (∀ r ∈ recs, r.lsn = lsn) ∧
      (recs.filter (fun r => r.endFlag)).length = 1 ∧
      (∃ lastRec, recs.getLast? = some lastRec ∧ lastRec.endFlag = true) ∧
      (∀ r ∈ recs.dropLast, r.endFlag = false) := by
  match xs, hne with
  | x :: rest, _ =>
    have hfirst : send_row { buffered_message := none } x.1 x.2.1 lsn x.2.2 =
        some ({ buffered_message := some (msgOf lsn x) }, []) := by
      simp [send_row, msgOf]
    have hrest := runSends_buffered lsn rest (msgOf lsn x) rfl
    have hsends : runSends { buffered_message := none } lsn (x :: rest) =
        some ({ buffered_message := some (msgOf lsn (rest.getLastD x)) },
          ((msgOf lsn x :: rest.map (msgOf lsn)).dropLast).map (flushRecord false)) := by
      calc runSends { buffered_message := none } lsn (x :: rest)
          = match send_row { buffered_message := none } x.1 x.2.1 lsn x.2.2 with
            | none => none
            | some (st', recs) =>
                (runSends st' lsn rest).map (fun p => (p.1, recs ++ p.2)) := rfl
        _ = (runSends { buffered_message := some (msgOf lsn x) } lsn rest).map
              (fun p => (p.1, [] ++ p.2)) := by rw [hfirst]
        _ = _ := by rw [hrest, getLastD_map_msgOf]; simp
    have hclose : close_lsn
        { buffered_message := some (msgOf lsn (rest.getLastD x)) } closeAt =
        some ({ buffered_message := none },
          [flushRecord true (msgOf lsn (rest.getLastD x))]) := by
      simp [close_lsn, msgOf, flushRecord, hle]
    have hrun : runScenario lsn closeAt (x :: rest) =
        some ({ buffered_message := none },
          ((msgOf lsn x :: rest.map (msgOf lsn)).dropLast).map (flushRecord false) ++
          [flushRecord true (msgOf lsn (rest.getLastD x))]) := by
      unfold runScenario
      rw [hsends]
      dsimp only
      rw [hclose]
      rfl
    refine ⟨_, hrun, ?_, ?_, ?_, ?_, ?_⟩
    · simp
    · intro r hr
      rcases List.mem_append.mp hr with hr | hr
      · rcases List.mem_map.mp hr with ⟨m, hm, rfl⟩
        have hm' := List.dropLast_subset _ hm
        rcases List.mem_cons.mp hm' with hm'' | hm''
        · subst hm''; rfl
        · rcases List.mem_map.mp hm'' with ⟨y, _, rfl⟩; rfl
      · simp at hr
        subst hr; rfl
    · rw [List.filter_append]
      have hnil : (((msgOf lsn x :: rest.map (msgOf lsn)).dropLast).map
          (flushRecord false)).filter (fun r => r.endFlag) = [] := by
        apply List.filter_eq_nil_iff.mpr
        intro a ha
        rcases List.mem_map.mp ha with ⟨m, _, rfl⟩
        simp [flushRecord]
      rw [hnil]
      rfl
    · exact ⟨flushRecord true (msgOf lsn (rest.getLastD x)),
        List.getLast?_concat _, rfl⟩
    · rw [List.dropLast_concat]
      intro r hr
      rcases List.mem_map.mp hr with ⟨m, _, rfl⟩
      rfl

/-- C2 witness: two sends at LSN 4 followed by `close_lsn 4` succeed and
emit the first row with `end = false` and the second with `end = true`. -/
theorem coalescer_exactly_one_end_witness :
    (∃ recs : List OutRecord,
      runScenario 4 4 [(1, [Datum.null], 1), (2, [Datum.str "b"], -1)] =
        some ({ buffered_message := none }, recs) ∧
      recs.length = 2 ∧
      (∀ r ∈ recs, r.lsn = 4) ∧
      (recs.filter (fun r => r.endFlag)).length = 1 ∧
      (∃ lastRec, recs.getLast? = some lastRec ∧ lastRec.endFlag = true) ∧
      (∀ r ∈ recs.dropLast, r.endFlag = false)) := by
  have h := coalescer_exactly_one_end 4 4
    [(1, [Datum.null], 1), (2, [Datum.str "b"], -1)] (by decide) (by decide)
  exact h

/-- C3: the rewind phase runs if and only if `slot_lsn < snapshot_lsn`
(after asserting `slot_lsn ≤ snapshot_lsn`); while it runs, every
`Event::Message(lsn, (output, row, diff))` with `lsn ≤ snapshot_lsn` is
re-emitted as a `send_row` at the slot LSN with diff `-diff`, messages with
`lsn > snapshot_lsn` contribute nothing, and the phase ends at the first
`Progress` marker past `snapshot_lsn`, at which point
`close_lsn(slot_lsn)` is called. -/
theorem rewind_phase_characterization (slotLsn snapshotLsn : Nat)
    (events : List (Except RepError RepEvent)) (h : slotLsn ≤ snapshotLsn) :
    (slotLsn < snapshotLsn →
      rewindSection slotLsn snapshotLsn events =
        some (rewindLoop slotLsn snapshotLsn events)) ∧
    (¬ slotLsn < snapshotLsn →
      rewindSection slotLsn snapshotLsn events = some ([], none)) ∧
    (rewindLoop slotLsn snapshotLsn events).1 =
      rewindClaimActions slotLsn snapshotLsn events := by
  refine ⟨?_, ?_, ?_⟩
  · intro hlt; simp [rewindSection, h, hlt]
  · intro hlt; simp [rewindSection, h, hlt]
  · induction events with
    | nil => rfl
    | cons e rest ih =>
        match e with
        | Except.ok (RepEvent.message lsn out row diff) =>
            by_cases hle : lsn ≤ snapshotLsn
            · simp [rewindLoop, rewindClaimActions, rewindStopper, rewindEmit,
                hle] at ih ⊢
              exact ih
            · simp [rewindLoop, rewindClaimActions, rewindStopper, rewindEmit,
                hle] at ih ⊢
              exact ih
        | Except.ok (RepEvent.progress lsn) =>
            by_cases hlt : snapshotLsn < lsn
            · simp [rewindLoop, rewindClaimActions, rewindStopper, hlt]
            · simp [rewindLoop, rewindClaimActions, rewindStopper, rewindEmit,
                hlt] at ih ⊢
              exact ih
        | Except.error (RepError.definite msg) =>
            simp [rewindLoop, rewindClaimActions, rewindStopper]
        | Except.error (RepError.indefinite msg) =>
            simp [rewindLoop, rewindClaimActions, rewindStopper]
        | Except.error (RepError.irrecoverable msg) =>
            simp [rewindLoop, rewindClaimActions, rewindStopper]

/-- C3 witness: with `slot_lsn = 5` and `snapshot_lsn = 8`, a trace with
messages at LSNs 6 and 9 and progress markers at 7 and 9 re-emits only the
LSN-6 message (negated, at LSN 5), stops at the progress marker 9 and
closes LSN 5. -/
theorem rewind_phase_characterization_witness :
    (5 < 8 →
      rewindSection 5 8
          [Except.ok (RepEvent.message 6 1 [Datum.null] 1),
            Except.ok (RepEvent.message 9 1 [] 1),
            Except.ok (RepEvent.progress 7),
            Except.ok (RepEvent.progress 9),
            Except.ok (RepEvent.message 6 1 [] 1)] =
        some (rewindLoop 5 8
          [Except.ok (RepEvent.message 6 1 [Datum.null] 1),
            Except.ok (RepEvent.message 9 1 [] 1),
            Except.ok (RepEvent.progress 7),
            Except.ok (RepEvent.progress 9),
            Except.ok (RepEvent.message 6 1 [] 1)])) ∧
    (¬ 5 < 8 →
      rewindSection 5 8
          [Except.ok (RepEvent.message 6 1 [Datum.null] 1),
            Except.ok (RepEvent.message 9 1 [] 1),
            Except.ok (RepEvent.progress 7),
            Except.ok (RepEvent.progress 9),
            Except.ok (RepEvent.message 6 1 [] 1)] = some ([], none)) ∧
    (rewindLoop 5 8
        [Except.ok (RepEvent.message 6 1 [Datum.null] 1),
          Except.ok (RepEvent.message 9 1 [] 1),
          Except.ok (RepEvent.progress 7),
          Except.ok (RepEvent.progress 9),
          Except.ok (RepEvent.message 6 1 [] 1)]).1 =
      rewindClaimActions 5 8
        [Except.ok (RepEvent.message 6 1 [Datum.null] 1),
          Except.ok (RepEvent.message 9 1 [] 1),
          Except.ok (RepEvent.progress 7),
          Except.ok (RepEvent.progress 9),
          Except.ok (RepEvent.message 6 1 [] 1)] :=
  rewind_phase_characterization 5 8
    [Except.ok (RepEvent.message 6 1 [Datum.null] 1),
      Except.ok (RepEvent.message 9 1 [] 1),
      Except.ok (RepEvent.progress 7),
      Except.ok (RepEvent.progress 9),
      Except.ok (RepEvent.message 6 1 [] 1)] (by decide)

/-- Dispatching the first stream failure of the snapshot loop, regardless
of how many rows precede it, returns the escalated error when the fail
point is disabled. -/
theorem snapshotLoopAux_fail (slotLsn : Nat) (e : RepError)
    (post : List SnapItem) (pre : List SnapItem) :
    ∀ i : Nat,
      (∀ x ∈ pre, ∃ o r, x = SnapItem.row o r) →
      snapshotLoopAux false slotLsn i (pre ++ SnapItem.fail e :: post) =
        Except.error (snapshotEscalate e) := by
  induction pre with
  | nil => intro i _; simp [snapshotLoopAux]
  | cons x t ih =>
      intro i hx
      obtain ⟨o, r, rfl⟩ := hx x (List.mem_cons_self x t)
      have ht : ∀ y ∈ t, ∃ o r, y = SnapItem.row o r :=
        fun y hy => hx y (List.mem_cons_of_mem _ hy)
      simp [snapshotLoopAux, ih (i + 1) ht, Except.map]

/-- C4 (amended): in the snapshot consume loop, a definite stream error is
returned as `Definite` and an indefinite or irrecoverable stream error is
escalated to `Irrecoverable`, regardless of whether any successful row
preceded it; the `pg_snapshot_failure` fault-injection hook, when enabled,
makes every iteration from the second item on return a retryable
(`Indefinite`) error instead. -/
theorem snapshot_error_escalation :
    (∀ (slotLsn : Nat) (msg : String) (pre post : List SnapItem),
      (∀ x ∈ pre, ∃ o r, x = SnapItem.row o r) →
      (snapshotLoop false slotLsn
          (pre ++ SnapItem.fail (RepError.definite msg) :: post) =
          Except.error (RepError.definite msg) ∧
        snapshotLoop false slotLsn
          (pre ++ SnapItem.fail (RepError.indefinite msg) :: post) =
          Except.error (RepError.irrecoverable msg) ∧
        snapshotLoop false slotLsn
          (pre ++ SnapItem.fail (RepError.irrecoverable msg) :: post) =
          Except.error (RepError.irrecoverable msg))) ∧
    (∀ (slotLsn out : Nat) (r : Row) (y : SnapItem) (rest : List SnapItem),
      snapshotLoop true slotLsn (SnapItem.row out r :: y :: rest) =
        Except.error (RepError.indefinite failpointMsg)) := by
  constructor
  · intro slotLsn msg pre post hpre
    exact ⟨snapshotLoopAux_fail slotLsn (RepError.definite msg) post pre 0 hpre,
      snapshotLoopAux_fail slotLsn (RepError.indefinite msg) post pre 0 hpre,
      snapshotLoopAux_fail slotLsn (RepError.irrecoverable msg) post pre 0 hpre⟩
  · intro slotLsn out r y rest
    simp [snapshotLoop, snapshotLoopAux, Except.map]

/-- C4 counterexample: an indefinite error arriving as the very first item
of the snapshot stream, before any successful row, is escalated to
`Irrecoverable`, refuting the claim that escalation happens only for
failures after the first successful row. -/
theorem snapshot_escalation_counterexample :
    snapshotLoop false 0 [SnapItem.fail (RepError.indefinite "connection reset")] =
      Except.error (RepError.irrecoverable "connection reset") := rfl

/-- C4 witness: one successful row followed by an indefinite failure is
escalated to `Irrecoverable` with the fail point off, while the second
iteration with the fail point on returns the retryable fail-point error. -/
theorem snapshot_error_escalation_witness :
    snapshotLoop false 3
        [SnapItem.row 1 [Datum.null],
          SnapItem.fail (RepError.indefinite "timeout")] =
      Except.error (RepError.irrecoverable "timeout") ∧
    snapshotLoop true 3
        [SnapItem.row 1 [Datum.null],
          SnapItem.fail (RepError.indefinite "timeout")] =
      Except.error (RepError.indefinite failpointMsg) := by
  constructor
  · exact (snapshot_error_escalation.1 3 "timeout" [SnapItem.row 1 [Datum.null]] []
      (by intro x hx; simp at hx; exact ⟨1, [Datum.null], hx⟩)).2.1
  · exact snapshot_error_escalation.2 3 1 [Datum.null]
      (SnapItem.fail (RepError.indefinite "timeout")) []

/-- The back-fill replaces exactly the `UnchangedToast` fields of the new
tuple by the old tuple's field at the same position. -/
theorem backfillToast_getElem (newTuple : List TupleData) :
    ∀ (oldTuple : List TupleData) (i : Nat) (nv ov : TupleData),
      newTuple[i]? = some nv → oldTuple[i]? = some ov →
      (backfillToast newTuple oldTuple)[i]? =
        some (if nv = TupleData.unchangedToast then ov else nv) := by
  induction newTuple with
  | nil => intro oldTuple i nv ov h1 h2; simp at h1
  | cons n ns ih =>
      intro oldTuple i nv ov h1 h2
      cases oldTuple with
      | nil => simp at h2
      | cons o os =>
          cases i with
          | zero =>
              simp at h1 h2
              subst h1
              subst h2
              cases n <;> simp [backfillToast]
          | succ j =>
              simp at h1 h2
              have hrec := ih os j nv ov h1 h2
              simpa [backfillToast] using hrec

/-- A concrete single-column source table used in witnesses and contrast
statements: output index 1, oid 16391, one column, and the cast that
returns the first input datum. -/
def wInfo : SourceTable :=
  { output_index := 1,
    desc := { namespc := "public", name := "t", oid := 16391, columns := ["v"] },
    casts := [fun ds => Except.ok (ds.getD 0 Datum.null)] }

/-- C5: an Update on a tracked table without an old tuple fails with a
definite error ending in the REPLICA IDENTITY remediation hint; with an
old tuple, the old row is pushed onto `deletes` and the new row onto
`inserts`, where the new tuple has every `UnchangedToast` field replaced
by the old tuple's field at the corresponding position before casting. -/
theorem update_old_tuple_and_backfill (tables : SourceTables) (st : DecState)
    (relId : Nat) (info : SourceTable) (old newTuple : List TupleData)
    (oldDatums newDatums : List Datum) (oldRow newRow : Row)
    (hlook : tables.lookup relId = some info)
    (hOldD : datums_from_tuple relId info.desc.columns.length old =
      Except.ok oldDatums)
    (hOldC : cast_row info.casts oldDatums = Except.ok oldRow)
    (hNewD : datums_from_tuple relId info.desc.columns.length
      (backfillToast newTuple old) = Except.ok newDatums)
    (hNewC : cast_row info.casts newDatums = Except.ok newRow) :
    (processLogicalMsg tables st (LogicalMsg.update relId none newTuple) =
        Except.error (RepError.definite (oldRowMissingMsg relId)) ∧
      ∃ p, oldRowMissingMsg relId = p ++ replicaIdentityHint) ∧
    processLogicalMsg tables st (LogicalMsg.update relId (some old) newTuple) =
      Except.ok
        ({ st with deletes := st.deletes ++ [(info.output_index, oldRow)],
                   inserts := st.inserts ++ [(info.output_index, newRow)] }, []) ∧
    (∀ (i : Nat) (nv ov : TupleData), newTuple[i]? = some nv → old[i]? = some ov →
      (backfillToast newTuple old)[i]? =
        some (if nv = TupleData.unchangedToast then ov else nv)) := by
  refine ⟨⟨?_, ?_⟩, ?_, ?_⟩
  · simp [processLogicalMsg, hlook, handleUpdate, Except.map]
  · exact ⟨"Old row missing from replication stream for table with OID = " ++
      toString relId ++ ".\n                                     ", rfl⟩
  · simp [processLogicalMsg, hlook, handleUpdate, hOldD, hOldC, hNewD, hNewC,
      Except.map]
  · exact fun i nv ov h1 h2 => backfillToast_getElem newTuple old i nv ov h1 h2

/-- C5 witness: on the concrete table `wInfo`, an Update whose new tuple
is a single `UnchangedToast` field back-fills the old value, deleting and
re-inserting the row `["a"]`. -/
theorem update_old_tuple_and_backfill_witness :
    processLogicalMsg [(16391, wInfo)]
        { inserts := [], deletes := [], lastCommitLsn := 0, observedWalEnd := 0 }
        (LogicalMsg.update 16391 (some [TupleData.text "a"])
          [TupleData.unchangedToast]) =
      Except.ok
        ({ inserts := [(1, [Datum.str "a"])], deletes := [(1, [Datum.str "a"])],
            lastCommitLsn := 0, observedWalEnd := 0 }, []) :=
  (update_old_tuple_and_backfill [(16391, wInfo)]
    { inserts := [], deletes := [], lastCommitLsn := 0, observedWalEnd := 0 }
    16391 wInfo [TupleData.text "a"] [TupleData.unchangedToast]
    [Datum.str "a"] [Datum.str "a"] [Datum.str "a"] [Datum.str "a"]
    rfl rfl rfl rfl rfl).2.1

/-- C9: on a tracked table, an `UnchangedToast` field within the declared
column count makes an Insert, a Delete, and the old tuple of an Update
fail with a definite error that names the table OID and carries the
REPLICA IDENTITY hint; the back-fill applies only to the new tuple of an
Update: the same single-`UnchangedToast` tuple that makes `handleInsert`
fail succeeds as an Update's new tuple. -/
theorem toast_definite_error (tables : SourceTables) (st : DecState)
    (relId : Nat) (info : SourceTable) (tuple otherTuple : List TupleData)
    (hlook : tables.lookup relId = some info)
    (htoast : TupleData.unchangedToast ∈ tuple.take info.desc.columns.length) :
    processLogicalMsg tables st (LogicalMsg.insert relId tuple) =
      Except.error (RepError.definite (toastErrMsg relId)) ∧
    processLogicalMsg tables st (LogicalMsg.delete relId (some tuple)) =
      Except.error (RepError.definite (toastErrMsg relId)) ∧
    processLogicalMsg tables st (LogicalMsg.update relId (some tuple) otherTuple) =
      Except.error (RepError.definite (toastErrMsg relId)) ∧
    (∃ p q, toastErrMsg relId = p ++ toString relId ++ q ++ replicaIdentityHint) ∧
    (∃ st', handleUpdate st wInfo 16391 (some [TupleData.text "a"])
        [TupleData.unchangedToast] = Except.ok st') ∧
    handleInsert st wInfo 16391 [TupleData.unchangedToast] =
      Except.error (RepError.definite (toastErrMsg 16391)) := by
  have hd : datums_from_tuple relId info.desc.columns.length tuple =
      Except.error (toastErrMsg relId) :=
    tupleDatumsAux_toast relId (tuple.take info.desc.columns.length) htoast
  refine ⟨?_, ?_, ?_, ?_, ?_, ?_⟩
  · simp [processLogicalMsg, hlook, handleInsert, hd, Except.map]
  · simp [processLogicalMsg, hlook, handleDelete, hd, Except.map]
  · simp [processLogicalMsg, hlook, handleUpdate, hd, Except.map]
  · exact ⟨"Missing TOASTed value from table with OID = ", ". ", rfl⟩
  · exact ⟨{ st with
      deletes := st.deletes ++ [(1, [Datum.str "a"])],
      inserts := st.inserts ++ [(1, [Datum.str "a"])] }, rfl⟩
  · rfl

/-- C9 witness: on the concrete table `wInfo`, an Insert carrying a single
`UnchangedToast` field fails with the definite TOAST error naming OID
16391. -/
theorem toast_definite_error_witness :
    processLogicalMsg [(16391, wInfo)]
        { inserts := [], deletes := [], lastCommitLsn := 0, observedWalEnd := 0 }
        (LogicalMsg.insert 16391 [TupleData.unchangedToast]) =
      Except.error (RepError.definite (toastErrMsg 16391)) :=
  (toast_definite_error [(16391, wInfo)]
    { inserts := [], deletes := [], lastCommitLsn := 0, observedWalEnd := 0 }
    16391 wInfo [TupleData.unchangedToast] [] rfl (by decide)).1

/-- `handleInsert` only appends to the `inserts` buffer. -/
theorem handleInsert_shape (st : DecState) (info : SourceTable) (relId : Nat)
    (t : List TupleData) (st' : DecState)
    (h : handleInsert st info relId t = Except.ok st') :
    st'.observedWalEnd = st.observedWalEnd := by
  unfold handleInsert at h
  split at h
  · exact Except.noConfusion h
  · split at h
    · exact Except.noConfusion h
    · injection h with h'
      subst h'
      rfl

/-- `handleDelete` only appends to the `deletes` buffer. -/
theorem handleDelete_shape (st : DecState) (info : SourceTable) (relId : Nat)
    (t : Option (List TupleData)) (st' : DecState)
    (h : handleDelete st info relId t = Except.ok st') :
    st'.observedWalEnd = st.observedWalEnd := by
  unfold handleDelete at h
  split at h
  · exact Except.noConfusion h
  · split at h
    · exact Except.noConfusion h
    · split at h
      · exact Except.noConfusion h
      · injection h with h'
        subst h'
        rfl

/-- `handleUpdate` only appends to the two buffers. -/
theorem handleUpdate_shape (st : DecState) (info : SourceTable) (relId : Nat)
    (old : Option (List TupleData)) (t : List TupleData) (st' : DecState)
    (h : handleUpdate st info relId old t = Except.ok st') :
    st'.observedWalEnd = st.observedWalEnd := by
  unfold handleUpdate at h
  split at h
  · exact Except.noConfusion h
  · split at h
    · exact Except.noConfusion h
    · split at h
      · exact Except.noConfusion h
      · split at h
        · exact Except.noConfusion h
        · split at h
          · exact Except.noConfusion h
          · injection h with h'
            subst h'
            rfl

/-- The bound needed on a replication message so that the decoder's
frontier arithmetic does not wrap: commit and keepalive LSNs must have a
u64 successor. -/
def msgLsnBound : RepMsg → Prop
  | RepMsg.xlog (LogicalMsg.commit endLsn) => endLsn + 1 < U64MOD
  | RepMsg.keepalive walEnd _ _ => walEnd + 1 < U64MOD
  | _ => True



/-- A successful decoder step leaves `observed_wal_end` unchanged and,
when the commit LSN is bounded, only yields progress LSNs in
`[1, 2 ^ 64)`. -/
theorem processLogicalMsg_progress (tables : SourceTables) (st : DecState)
    (m : LogicalMsg) (hb : msgLsnBound (RepMsg.xlog m)) :
    ∀ (st' : DecState) (evs : List RepEvent),
      processLogicalMsg tables st m = Except.ok (st', evs) →
      st'.observedWalEnd = st.observedWalEnd ∧
      ∀ l, RepEvent.progress l ∈ evs → 1 ≤ l ∧ l < U64MOD := by
  cases m with
  | begin =>
      intro st' evs h
      simp only [processLogicalMsg] at h
      split at h
      · exact Except.noConfusion h
      · injection h with h'
        rw [Prod.mk.injEq] at h'
        obtain ⟨h1, h2⟩ := h'
        subst h1
        subst h2
        exact ⟨rfl, by simp⟩
  | insert relId t =>
      intro st' evs h
      cases hl : tables.lookup relId with
      | none =>
          simp only [processLogicalMsg, hl] at h
          injection h with h'
          rw [Prod.mk.injEq] at h'
          obtain ⟨h1, h2⟩ := h'
          subst h1
          subst h2
          exact ⟨rfl, by simp⟩
      | some info =>
          simp only [processLogicalMsg, hl] at h
          cases hI : handleInsert st info relId t with
          | error e => rw [hI] at h; simp [Except.map] at h
          | ok st2 =>
              rw [hI] at h
              simp only [Except.map] at h
              injection h with h'
              rw [Prod.mk.injEq] at h'
              obtain ⟨h1, h2⟩ := h'
              subst h1
              subst h2
              exact ⟨handleInsert_shape st info relId t st2 hI, by simp⟩
  | update relId old t =>
      intro st' evs h
      cases hl : tables.lookup relId with
      | none =>
          simp only [processLogicalMsg, hl] at h
          injection h with h'
          rw [Prod.mk.injEq] at h'
          obtain ⟨h1, h2⟩ := h'
          subst h1
          subst h2
          exact ⟨rfl, by simp⟩
      | some info =>
          simp only [processLogicalMsg, hl] at h
          cases hI : handleUpdate st info relId old t with
          | error e => rw [hI] at h; simp [Except.map] at h
          | ok st2 =>
              rw [hI] at h
              simp only [Except.map] at h
              injection h with h'
              rw [Prod.mk.injEq] at h'
              obtain ⟨h1, h2⟩ := h'
              subst h1
              subst h2
              exact ⟨handleUpdate_shape st info relId old t st2 hI, by simp⟩
  | delete relId old =>
      intro st' evs h
      cases hl : tables.lookup relId with
      | none =>
          simp only [processLogicalMsg, hl] at h
          injection h with h'
          rw [Prod.mk.injEq] at h'
          obtain ⟨h1, h2⟩ := h'
          subst h1
          subst h2
          exact ⟨rfl, by simp⟩
      | some info =>
          simp only [processLogicalMsg, hl] at h
          cases hI : handleDelete st info relId old with
          | error e => rw [hI] at h; simp [Except.map] at h
          | ok st2 =>
              rw [hI] at h
              simp only [Except.map] at h
              injection h with h'
              rw [Prod.mk.injEq] at h'
              obtain ⟨h1, h2⟩ := h'
              subst h1
              subst h2
              exact ⟨handleDelete_shape st info relId old st2 hI, by simp⟩
  | commit endLsn =>
      intro st' evs h
      have hb' : endLsn + 1 < U64MOD := hb
      simp only [processLogicalMsg] at h
      injection h with h'
      rw [Prod.mk.injEq] at h'
      obtain ⟨h1, h2⟩ := h'
      subst h1
      subst h2
      refine ⟨rfl, ?_⟩
      intro l hl
      have hadd : u64add endLsn 1 = endLsn + 1 := by
        simp [u64add, Nat.mod_eq_of_lt hb']
      rcases List.mem_append.mp hl with hm | hm
      · rcases List.mem_append.mp hm with hm2 | hm2
        · exfalso
          rcases List.mem_map.mp hm2 with ⟨d, _, hd⟩
          exact RepEvent.noConfusion hd
        · exfalso
          rcases List.mem_map.mp hm2 with ⟨d, _, hd⟩
          exact RepEvent.noConfusion hd
      · simp at hm
        subst hm
        rw [hadd]
        omega
  | relation relId checkResult =>
      intro st' evs h
      cases hl : tables.lookup relId with
      | none =>
          simp only [processLogicalMsg, hl] at h
          injection h with h'
          rw [Prod.mk.injEq] at h'
          obtain ⟨h1, h2⟩ := h'
          subst h1
          subst h2
          exact ⟨rfl, by simp⟩
      | some info =>
          simp only [processLogicalMsg, hl] at h
          cases checkResult with
          | error e => simp [Except.map] at h
          | ok u =>
              simp only [Except.map] at h
              injection h with h'
              rw [Prod.mk.injEq] at h'
              obtain ⟨h1, h2⟩ := h'
              subst h1
              subst h2
              exact ⟨rfl, by simp⟩
  | origin =>
      intro st' evs h
      simp only [processLogicalMsg] at h
      injection h with h'
      rw [Prod.mk.injEq] at h'
      obtain ⟨h1, h2⟩ := h'
      subst h1
      subst h2
      exact ⟨rfl, by simp⟩
  | type =>
      intro st' evs h
      simp only [processLogicalMsg] at h
      injection h with h'
      rw [Prod.mk.injEq] at h'
      obtain ⟨h1, h2⟩ := h'
      subst h1
      subst h2
      exact ⟨rfl, by simp⟩
  | truncate relIds =>
      intro st' evs h
      simp only [processLogicalMsg] at h
      exact Except.noConfusion h
  | unknown =>
      intro st' evs h
      simp only [processLogicalMsg] at h
      exact Except.noConfusion h

/-- The inner replication loop preserves the bound on `observed_wal_end`
and only yields progress LSNs in `[1, 2 ^ 64)` under bounded inputs. -/
theorem runInner_progress (tables : SourceTables) :
    ∀ (msgs : List RepMsg) (st : DecState),
      st.observedWalEnd + 1 < U64MOD →
      (∀ m ∈ msgs, msgLsnBound m) →
      ((runInner tables st msgs).1.observedWalEnd + 1 < U64MOD ∧
        ∀ l, RepEvent.progress l ∈ (runInner tables st msgs).2.1 →
          1 ≤ l ∧ l < U64MOD) := by
  intro msgs
  induction msgs with
  | nil =>
      intro st hst _
      exact ⟨hst, by simp [runInner]⟩
  | cons msg rest ih =>
      intro st hst hb
      have hbr : ∀ m' ∈ rest, msgLsnBound m' :=
        fun m' hm' => hb m' (List.mem_cons_of_mem _ hm')
      match msg with
      | RepMsg.xlog m =>
          have hbm : msgLsnBound (RepMsg.xlog m) := hb _ (List.mem_cons_self _ _)
          cases hp : processLogicalMsg tables st m with
          | error e =>
              refine ⟨?_, ?_⟩
              · simp [runInner, hp]; exact hst
              · intro l hl; simp [runInner, hp] at hl
          | ok p =>
              obtain ⟨st2, evs⟩ := p
              have hshape := processLogicalMsg_progress tables st m hbm st2 evs hp
              have hst2 : st2.observedWalEnd + 1 < U64MOD := by
                rw [hshape.1]; exact hst
              have hrec := ih st2 hst2 hbr
              refine ⟨?_, ?_⟩
              · simp only [runInner, hp]; exact hrec.1
              · intro l hl
                simp only [runInner, hp] at hl
                rcases List.mem_append.mp hl with hm | hm
                · exact hshape.2 l hm
                · exact hrec.2 l hm
      | RepMsg.keepalive walEnd reply lagged =>
          have hbm : walEnd + 1 < U64MOD := hb _ (List.mem_cons_self _ _)
          cases lagged with
          | true =>
              refine ⟨?_, ?_⟩
              · simp [runInner]; exact hbm
              · intro l hl; simp [runInner] at hl
          | false =>
              have hrec := ih { st with observedWalEnd := walEnd } hbm hbr
              refine ⟨?_, ?_⟩
              · simp only [runInner]; simp only [Bool.false_eq_true, if_false]
                exact hrec.1
              · intro l hl
                simp only [runInner, Bool.false_eq_true, if_false] at hl
                exact hrec.2 l hl
      | RepMsg.streamErr e msg' =>
          refine ⟨?_, ?_⟩
          · simp [runInner]; exact hst
          · intro l hl; simp [runInner] at hl
      | RepMsg.unknownVariant =>
          refine ⟨?_, ?_⟩
          · simp [runInner]; exact hst
          · intro l hl; simp [runInner] at hl

/-- The fast-forward probe preserves the bound on `observed_wal_end` and
only yields a progress LSN in `[1, 2 ^ 64)` when the bound holds. -/
theorem runProbe_progress (peeked : List Nat) (st : DecState)
    (hst : st.observedWalEnd + 1 < U64MOD) :
    ((runProbe peeked st).1.observedWalEnd + 1 < U64MOD ∧
      ∀ l, RepEvent.progress l ∈ (runProbe peeked st).2 → 1 ≤ l ∧ l < U64MOD) := by
  have hadd : u64add st.observedWalEnd 1 = st.observedWalEnd + 1 := by
    simp [u64add, Nat.mod_eq_of_lt hst]
  simp only [runProbe]
  split
  · refine ⟨by simpa using hst, ?_⟩
    intro l hl
    simp at hl
    subst hl
    rw [hadd]
    omega
  · exact ⟨hst, by simp⟩

/-- The outer replication loop only yields progress LSNs in `[1, 2 ^ 64)`
under bounded inputs. -/
theorem runRounds_progress (tables : SourceTables) :
    ∀ (rounds : List Round) (st : DecState),
      st.observedWalEnd + 1 < U64MOD →
      (∀ round ∈ rounds, ∀ m ∈ round.msgs, msgLsnBound m) →
      ∀ l, RepEvent.progress l ∈ (runRounds tables st rounds).1 →
        1 ≤ l ∧ l < U64MOD := by
  intro rounds
  induction rounds with
  | nil =>
      intro st _ _ l hl
      simp [runRounds] at hl
  | cons round rest ih =>
      intro st hst hb l hl
      have hbm : ∀ m ∈ round.msgs, msgLsnBound m := hb round (List.mem_cons_self _ _)
      have hbr : ∀ r ∈ rest, ∀ m ∈ r.msgs, msgLsnBound m :=
        fun r hr => hb r (List.mem_cons_of_mem _ hr)
      have hinner := runInner_progress tables round.msgs st hst hbm
      cases herr : (runInner tables st round.msgs).2.2 with
      | some e =>
          simp only [runRounds, herr] at hl
          exact hinner.2 l hl
      | none =>
          have hprobe := runProbe_progress round.peeked (runInner tables st round.msgs).1
            hinner.1
          simp only [runRounds, herr] at hl
          rcases List.mem_append.mp hl with hm | hm
          · rcases List.mem_append.mp hm with hm2 | hm2
            · exact hinner.2 l hm2
            · exact hprobe.2 l hm2
          · exact ih (runProbe round.peeked (runInner tables st round.msgs).1).1
              hprobe.1 hbr l hm

/-- C10 (amended): provided the `as_of` LSN and every commit end LSN and
keepalive WAL end in the input have a u64 successor (i.e. are below
`2 ^ 64 - 1`), every `Progress` event yielded by `produce_replication`
carries an LSN that is a commit LSN or observed WAL end plus one, hence is
at least 1, and the handler's subtraction `u64::from(lsn) - 1` does not
wrap. -/
theorem progress_lsn_positive (tables : SourceTables) (asOf : Nat)
    (rounds : List Round) (h0 : asOf + 1 < U64MOD)
    (hb : ∀ round ∈ rounds, ∀ m ∈ round.msgs, msgLsnBound m) :
    ∀ l, RepEvent.progress l ∈ (produce_replication tables asOf rounds).1 →
      1 ≤ l ∧ handlerReplicationLsn l = l - 1 := by
  intro l hl
  have h := runRounds_progress tables rounds
    { inserts := [], deletes := [], lastCommitLsn := asOf, observedWalEnd := asOf }
    h0 hb l hl
  exact ⟨h.1, u64sub_one_eq h.1 h.2⟩

/-- C10 counterexample: a commit whose end LSN is `2 ^ 64 - 1` makes
`produce_replication` yield `Progress([0])` (the u64 increment wraps), and
on that event the handler's computation `u64::from(lsn) - 1` wraps to
`2 ^ 64 - 1` instead of yielding `lsn - 1 = 0`; the claim that every
yielded progress LSN is at least 1 is therefore false. -/
theorem progress_lsn_counterexample :
    RepEvent.progress 0 ∈
      (produce_replication [] 5
        [{ msgs := [RepMsg.xlog (LogicalMsg.commit (U64MOD - 1))], peeked := [] }]).1 ∧
    ¬ 1 ≤ (0 : Nat) ∧
    handlerReplicationLsn 0 = U64MOD - 1 ∧
    handlerReplicationLsn 0 ≠ 0 - 1 := by
  refine ⟨?_, by decide, by decide, by decide⟩
  have hev : (produce_replication [] 5
      [{ msgs := [RepMsg.xlog (LogicalMsg.commit (U64MOD - 1))], peeked := [] }]).1 =
      [RepEvent.progress 0, RepEvent.progress 6] := by decide
  rw [hev]
  simp

/-- C10 witness: a single commit at LSN 10 yields progress events at 11
and (from the probe) 6, all at least 1, on which the handler's subtraction
is exact. -/
theorem progress_lsn_positive_witness :
    1 ≤ 11 ∧ handlerReplicationLsn 11 = 11 - 1 := by
  have hmem : RepEvent.progress 11 ∈
      (produce_replication [] 5
        [{ msgs := [RepMsg.xlog (LogicalMsg.commit 10)], peeked := [] }]).1 := by
    decide
  exact progress_lsn_positive [] 5
    [{ msgs := [RepMsg.xlog (LogicalMsg.commit 10)], peeked := [] }]
    (by decide)
    (by
      intro round hr m hm
      simp at hr
      subst hr
      simp at hm
      subst hm
      show 10 + 1 < U64MOD
      decide)
    11 hmem
